import Mathlib

/-
Verification of the raw-data validation core of the fund_recommender
repository (`src/if_recomender/validation/raw/data_validator.py`,
`src/if_recomender/validation/models.py`, `src/if_recomender/utils.py`,
`src/if_recomender/hooks.py`).

File contents are modelled as `List Char`.  Python's `str.split`,
`str.replace('""','')`, `str.join` and the explicit index loops of the
validator are translated into structurally recursive functions on
character lists.  The file system is modelled explicitly: the content of
the file under repair, the date-bucketed backup store of
`utils.backup_file`, and the possibility of an I/O error when creating a
backup are threaded through the repair operations as values.
-/

set_option maxHeartbeats 1000000

/-! ### Basic character classes

`isSpaceChar` models the ASCII whitespace stripped by Python's
`str.strip()` (the validator only ever applies it to decide whether a
line is blank). -/

def isSpaceChar (c : Char) : Bool :=
  c == ' ' || c == '\t' || c == '\n' || c == '\r' || c == '\x0b' || c == '\x0c'

/-- A line is blank when `line.strip()` is falsy in Python: every character
is whitespace (in particular the empty line is blank). -/
def isBlank (l : List Char) : Bool := l.all isSpaceChar

/-! ### Splitting and joining on a separator character

`splitOnChar sep` models Python's `str.split(sep)` (always at least one
part; empty parts kept), `joinChar sep` models `sep.join(parts)`. -/

def splitAux (sep : Char) : List Char → List Char × List (List Char)
  | [] => ([], [])
  | c :: rest =>
    let r := splitAux sep rest
    if c = sep then ([], r.1 :: r.2) else (c :: r.1, r.2)

def splitOnChar (sep : Char) (l : List Char) : List (List Char) :=
  (splitAux sep l).1 :: (splitAux sep l).2

def joinChar (sep : Char) : List (List Char) → List Char
  | [] => []
  | [p] => p
  | p :: ps => p ++ sep :: joinChar sep ps

theorem joinChar_cons₂ (sep : Char) (p q : List Char) (ps : List (List Char)) :
    joinChar sep (p :: q :: ps) = p ++ sep :: joinChar sep (q :: ps) := rfl

theorem joinChar_cons_head (sep c : Char) (p : List Char) (ps : List (List Char)) :
    joinChar sep ((c :: p) :: ps) = c :: joinChar sep (p :: ps) := by
  cases ps with
  | nil => rfl
  | cons q qs => rfl

theorem splitAux_sep (sep : Char) (rest : List Char) :
    splitAux sep (sep :: rest) = ([], (splitAux sep rest).1 :: (splitAux sep rest).2) := by
  simp [splitAux]

theorem splitAux_cons_ne (sep c : Char) (rest : List Char) (h : c ≠ sep) :
    splitAux sep (c :: rest) = (c :: (splitAux sep rest).1, (splitAux sep rest).2) := by
  simp [splitAux, h]

theorem joinChar_splitOnChar (sep : Char) (l : List Char) :
    joinChar sep (splitOnChar sep l) = l := by
  unfold splitOnChar
  induction l with
  | nil => rfl
  | cons c rest ih =>
    by_cases h : c = sep
    · subst h
      rw [splitAux_sep, joinChar_cons₂]
      simpa using ih
    · rw [splitAux_cons_ne sep c rest h, joinChar_cons_head, ih]

theorem splitAux_sep_free (sep : Char) (l : List Char) :
    sep ∉ (splitAux sep l).1 ∧ ∀ p ∈ (splitAux sep l).2, sep ∉ p := by
  induction l with
  | nil => simp [splitAux]
  | cons c rest ih =>
    by_cases h : c = sep
    · subst h
      rw [splitAux_sep]
      refine ⟨by simp, ?_⟩
      intro p hp
      rcases List.mem_cons.mp hp with rfl | hp2
      · exact ih.1
      · exact ih.2 p hp2
    · rw [splitAux_cons_ne sep c rest h]
      refine ⟨?_, ih.2⟩
      intro hmem
      rcases List.mem_cons.mp hmem with h1 | h2
      · exact h h1.symm
      · exact ih.1 h2

theorem splitOnChar_sep_free (sep : Char) (l : List Char) :
    ∀ p ∈ splitOnChar sep l, sep ∉ p := by
  intro p hp
  rcases List.mem_cons.mp hp with rfl | hp2
  · exact (splitAux_sep_free sep l).1
  · exact (splitAux_sep_free sep l).2 p hp2

theorem splitAux_mem_subset (sep : Char) (l : List Char) :
    (∀ x ∈ (splitAux sep l).1, x ∈ l) ∧
      ∀ p ∈ (splitAux sep l).2, ∀ x ∈ p, x ∈ l := by
  induction l with
  | nil => simp [splitAux]
  | cons c rest ih =>
    by_cases h : c = sep
    · subst h
      rw [splitAux_sep]
      refine ⟨by simp, ?_⟩
      intro p hp x hx
      rcases List.mem_cons.mp hp with rfl | hp2
      · exact List.mem_cons_of_mem _ (ih.1 x hx)
      · exact List.mem_cons_of_mem _ (ih.2 p hp2 x hx)
    · rw [splitAux_cons_ne sep c rest h]
      refine ⟨?_, ?_⟩
      · intro x hx
        rcases List.mem_cons.mp hx with rfl | hx2
        · exact List.mem_cons_self x rest
        · exact List.mem_cons_of_mem _ (ih.1 x hx2)
      · intro p hp x hx
        exact List.mem_cons_of_mem _ (ih.2 p hp x hx)

theorem splitOnChar_mem_subset (sep : Char) (l : List Char) :
    ∀ p ∈ splitOnChar sep l, ∀ x ∈ p, x ∈ l := by
  intro p hp
  rcases List.mem_cons.mp hp with rfl | hp2
  · exact (splitAux_mem_subset sep l).1
  · exact (splitAux_mem_subset sep l).2 p hp2

theorem splitAux_append_sep_free (sep : Char) (p l : List Char) (h : sep ∉ p) :
    splitAux sep (p ++ l) = (p ++ (splitAux sep l).1, (splitAux sep l).2) := by
  induction p with
  | nil => simp
  | cons c cs ih =>
    have hc : c ≠ sep := fun e => h (e ▸ List.mem_cons_self c cs)
    have hcs : sep ∉ cs := fun e => h (List.mem_cons_of_mem c e)
    rw [List.cons_append, splitAux_cons_ne sep c _ hc, ih hcs]
    simp

theorem splitAux_joinChar (sep : Char) :
    ∀ (ps : List (List Char)) (p : List Char), sep ∉ p → (∀ q ∈ ps, sep ∉ q) →
      splitAux sep (joinChar sep (p :: ps)) = (p, ps) := by
  intro ps
  induction ps with
  | nil =>
    intro p hp _
    have := splitAux_append_sep_free sep p [] hp
    simpa [joinChar, splitAux] using this
  | cons q qs ih =>
    intro p hp hq
    rw [joinChar_cons₂, splitAux_append_sep_free sep p _ hp, splitAux_sep,
      ih q (hq q (List.mem_cons_self q qs)) (fun r hr => hq r (List.mem_cons_of_mem q hr))]
    simp

theorem splitOnChar_joinChar (sep : Char) (p : List Char) (ps : List (List Char))
    (hp : sep ∉ p) (hps : ∀ q ∈ ps, sep ∉ q) :
    splitOnChar sep (joinChar sep (p :: ps)) = p :: ps := by
  unfold splitOnChar
  rw [splitAux_joinChar sep ps p hp hps]

theorem mem_joinChar (sep : Char) (x : Char) :
    ∀ ps : List (List Char), x ∈ joinChar sep ps → x = sep ∨ ∃ p ∈ ps, x ∈ p := by
  intro ps
  induction ps with
  | nil => intro h; simp [joinChar] at h
  | cons p qs ih =>
    cases qs with
    | nil =>
      intro h
      right
      exact ⟨p, List.mem_cons_self p [], h⟩
    | cons q qs' =>
      rw [joinChar_cons₂]
      intro h
      rcases List.mem_append.mp h with h1 | h2
      · right; exact ⟨p, List.mem_cons_self p _, h1⟩
      · rcases List.mem_cons.mp h2 with rfl | h3
        · left; rfl
        · rcases ih h3 with h4 | ⟨r, hr, hx⟩
          · left; exact h4
          · right; exact ⟨r, List.mem_cons_of_mem p hr, hx⟩

/-! ### Quote handling

`stripPairs` models `field.replace('""', "")`: the left-to-right removal
of non-overlapping escaped quote pairs.  `residualQuotes` is the count of
`"` characters that remain afterwards — the validator's "unescaped quote
count" of a field. -/

def stripPairs : List Char → List Char
  | [] => []
  | [c] => [c]
  | c1 :: c2 :: rest =>
    if c1 = '"' ∧ c2 = '"' then stripPairs rest
    else c1 :: stripPairs (c2 :: rest)

def residualQuotes (field : List Char) : Nat := List.count '"' (stripPairs field)

/-- `RawDataValidator._remove_unescaped_quotes`: drop every `"` that is not
part of a `""` pair, keeping the pairs themselves. -/
def removeUnescapedQuotes : List Char → List Char
  | [] => []
  | [c] => if c = '"' then [] else [c]
  | c1 :: c2 :: rest =>
    if c1 = '"' then
      if c2 = '"' then '"' :: '"' :: removeUnescapedQuotes rest
      else removeUnescapedQuotes (c2 :: rest)
    else c1 :: removeUnescapedQuotes (c2 :: rest)

/-- `RawDataValidator._double_unescaped_quotes`: turn every `"` that is not
part of a `""` pair into `""`, keeping existing pairs untouched. -/
def doubleUnescapedQuotes : List Char → List Char
  | [] => []
  | [c] => if c = '"' then ['"', '"'] else [c]
  | c1 :: c2 :: rest =>
    if c1 = '"' then
      if c2 = '"' then '"' :: '"' :: doubleUnescapedQuotes rest
      else '"' :: '"' :: doubleUnescapedQuotes (c2 :: rest)
    else c1 :: doubleUnescapedQuotes (c2 :: rest)

/-- Two-step structural eliminator for character lists, matching the shape
of the recursions above. -/
def recPairs {P : List Char → Prop} (h0 : P []) (h1 : ∀ c, P [c])
    (h2 : ∀ c1 c2 rest, P rest → P (c2 :: rest) → P (c1 :: c2 :: rest)) : ∀ l, P l
  | [] => h0
  | [c] => h1 c
  | c1 :: c2 :: rest => h2 c1 c2 rest (recPairs h0 h1 h2 rest) (recPairs h0 h1 h2 (c2 :: rest))

theorem stripPairs_cons₂ (c1 c2 : Char) (rest : List Char) :
    stripPairs (c1 :: c2 :: rest) =
      if c1 = '"' ∧ c2 = '"' then stripPairs rest else c1 :: stripPairs (c2 :: rest) := rfl

theorem stripPairs_cons_ne (c : Char) (rest : List Char) (h : c ≠ '"') :
    stripPairs (c :: rest) = c :: stripPairs rest := by
  cases rest with
  | nil => rfl
  | cons d ds => rw [stripPairs_cons₂]; simp [h]

theorem stripPairs_pair (rest : List Char) :
    stripPairs ('"' :: '"' :: rest) = stripPairs rest := by
  rw [stripPairs_cons₂]; simp

theorem removeUnescapedQuotes_cons₂ (c1 c2 : Char) (rest : List Char) :
    removeUnescapedQuotes (c1 :: c2 :: rest) =
      if c1 = '"' then
        if c2 = '"' then '"' :: '"' :: removeUnescapedQuotes rest
        else removeUnescapedQuotes (c2 :: rest)
      else c1 :: removeUnescapedQuotes (c2 :: rest) := rfl

theorem removeUnescapedQuotes_pair (rest : List Char) :
    removeUnescapedQuotes ('"' :: '"' :: rest) = '"' :: '"' :: removeUnescapedQuotes rest := by
  simp [removeUnescapedQuotes_cons₂]

theorem removeUnescapedQuotes_quote_ne (c2 : Char) (rest : List Char) (h : c2 ≠ '"') :
    removeUnescapedQuotes ('"' :: c2 :: rest) = removeUnescapedQuotes (c2 :: rest) := by
  simp [removeUnescapedQuotes_cons₂, h]

theorem removeUnescapedQuotes_cons_ne (c1 c2 : Char) (rest : List Char) (h : c1 ≠ '"') :
    removeUnescapedQuotes (c1 :: c2 :: rest) = c1 :: removeUnescapedQuotes (c2 :: rest) := by
  simp [removeUnescapedQuotes_cons₂, h]

theorem doubleUnescapedQuotes_cons₂ (c1 c2 : Char) (rest : List Char) :
    doubleUnescapedQuotes (c1 :: c2 :: rest) =
      if c1 = '"' then
        if c2 = '"' then '"' :: '"' :: doubleUnescapedQuotes rest
        else '"' :: '"' :: doubleUnescapedQuotes (c2 :: rest)
      else c1 :: doubleUnescapedQuotes (c2 :: rest) := rfl

theorem doubleUnescapedQuotes_pair (rest : List Char) :
    doubleUnescapedQuotes ('"' :: '"' :: rest) = '"' :: '"' :: doubleUnescapedQuotes rest := by
  simp [doubleUnescapedQuotes_cons₂]

theorem doubleUnescapedQuotes_quote_ne (c2 : Char) (rest : List Char) (h : c2 ≠ '"') :
    doubleUnescapedQuotes ('"' :: c2 :: rest) = '"' :: '"' :: doubleUnescapedQuotes (c2 :: rest) := by
  simp [doubleUnescapedQuotes_cons₂, h]

theorem doubleUnescapedQuotes_cons_ne (c1 c2 : Char) (rest : List Char) (h : c1 ≠ '"') :
    doubleUnescapedQuotes (c1 :: c2 :: rest) = c1 :: doubleUnescapedQuotes (c2 :: rest) := by
  simp [doubleUnescapedQuotes_cons₂, h]

/-- After `_remove_unescaped_quotes`, the residual unescaped-quote count of
the field is zero: all quote characters left come in `""` pairs. -/
theorem quote_not_mem_stripPairs_remove (f : List Char) :
    '"' ∉ stripPairs (removeUnescapedQuotes f) := by
  induction f using recPairs with
  | h0 => simp [removeUnescapedQuotes, stripPairs]
  | h1 c =>
    by_cases h : c = '"'
    · simp [removeUnescapedQuotes, h, stripPairs]
    · simp only [removeUnescapedQuotes, if_neg h, stripPairs]
      exact fun e => h ((List.mem_singleton.mp e).symm)
  | h2 c1 c2 rest ih1 ih2 =>
    by_cases h1 : c1 = '"'
    · subst h1
      by_cases h2 : c2 = '"'
      · subst h2
        rw [removeUnescapedQuotes_pair, stripPairs_pair]
        exact ih1
      · rw [removeUnescapedQuotes_quote_ne c2 rest h2]
        exact ih2
    · rw [removeUnescapedQuotes_cons_ne c1 c2 rest h1]
      cases hx : removeUnescapedQuotes (c2 :: rest) with
      | nil =>
        rw [hx] at ih2
        simp only [stripPairs]
        exact fun e => h1 ((List.mem_singleton.mp e).symm)
      | cons d ds =>
        rw [hx] at ih2
        rw [stripPairs_cons_ne c1 _ h1]
        intro hmem
        rcases List.mem_cons.mp hmem with he | hm
        · exact h1 he.symm
        · exact ih2 hm

theorem residualQuotes_remove (f : List Char) :
    residualQuotes (removeUnescapedQuotes f) = 0 := by
  unfold residualQuotes
  exact List.count_eq_zero.mpr (quote_not_mem_stripPairs_remove f)

/-- After `_double_unescaped_quotes`, the residual unescaped-quote count of
the field is zero: every quote character is part of a `""` pair. -/
theorem quote_not_mem_stripPairs_double (f : List Char) :
    '"' ∉ stripPairs (doubleUnescapedQuotes f) := by
  induction f using recPairs with
  | h0 => simp [doubleUnescapedQuotes, stripPairs]
  | h1 c =>
    by_cases h : c = '"'
    · simp [doubleUnescapedQuotes, h, stripPairs]
    · simp only [doubleUnescapedQuotes, if_neg h, stripPairs]
      exact fun e => h ((List.mem_singleton.mp e).symm)
  | h2 c1 c2 rest ih1 ih2 =>
    by_cases h1 : c1 = '"'
    · subst h1
      by_cases h2 : c2 = '"'
      · subst h2
        rw [doubleUnescapedQuotes_pair, stripPairs_pair]
        exact ih1
      · rw [doubleUnescapedQuotes_quote_ne c2 rest h2, stripPairs_pair]
        exact ih2
    · rw [doubleUnescapedQuotes_cons_ne c1 c2 rest h1]
      cases hx : doubleUnescapedQuotes (c2 :: rest) with
      | nil =>
        rw [hx] at ih2
        simp only [stripPairs]
        exact fun e => h1 ((List.mem_singleton.mp e).symm)
      | cons d ds =>
        rw [hx] at ih2
        rw [stripPairs_cons_ne c1 _ h1]
        intro hmem
        rcases List.mem_cons.mp hmem with he | hm
        · exact h1 he.symm
        · exact ih2 hm

theorem residualQuotes_double (f : List Char) :
    residualQuotes (doubleUnescapedQuotes f) = 0 := by
  unfold residualQuotes
  exact List.count_eq_zero.mpr (quote_not_mem_stripPairs_double f)

theorem mem_removeUnescapedQuotes (f : List Char) (x : Char)
    (hx : x ∈ removeUnescapedQuotes f) : x ∈ f := by
  induction f using recPairs with
  | h0 => simp [removeUnescapedQuotes] at hx
  | h1 c =>
    by_cases h : c = '"'
    · simp [removeUnescapedQuotes, h] at hx
    · simp only [removeUnescapedQuotes, if_neg h] at hx
      exact hx
  | h2 c1 c2 rest ih1 ih2 =>
    by_cases h1 : c1 = '"'
    · subst h1
      by_cases h2 : c2 = '"'
      · subst h2
        rw [removeUnescapedQuotes_pair] at hx
        rcases List.mem_cons.mp hx with rfl | hx2
        · exact List.mem_cons_self _ _
        · rcases List.mem_cons.mp hx2 with rfl | hx3
          · exact List.mem_cons_of_mem _ (List.mem_cons_self _ _)
          · exact List.mem_cons_of_mem _ (List.mem_cons_of_mem _ (ih1 hx3))
      · rw [removeUnescapedQuotes_quote_ne c2 rest h2] at hx
        exact List.mem_cons_of_mem _ (ih2 hx)
    · rw [removeUnescapedQuotes_cons_ne c1 c2 rest h1] at hx
      rcases List.mem_cons.mp hx with rfl | hx2
      · exact List.mem_cons_self x _
      · exact List.mem_cons_of_mem _ (ih2 hx2)

theorem mem_doubleUnescapedQuotes (f : List Char) (x : Char)
    (hx : x ∈ doubleUnescapedQuotes f) : x ∈ f ∨ x = '"' := by
  induction f using recPairs with
  | h0 => simp [doubleUnescapedQuotes] at hx
  | h1 c =>
    by_cases h : c = '"'
    · simp [doubleUnescapedQuotes, h] at hx
      right; exact hx
    · simp only [doubleUnescapedQuotes, if_neg h] at hx
      left; exact hx
  | h2 c1 c2 rest ih1 ih2 =>
    by_cases h1 : c1 = '"'
    · subst h1
      by_cases h2 : c2 = '"'
      · subst h2
        rw [doubleUnescapedQuotes_pair] at hx
        rcases List.mem_cons.mp hx with rfl | hx2
        · right; rfl
        · rcases List.mem_cons.mp hx2 with rfl | hx3
          · right; rfl
          · rcases ih1 hx3 with h | h
            · left; exact List.mem_cons_of_mem _ (List.mem_cons_of_mem _ h)
            · right; exact h
      · rw [doubleUnescapedQuotes_quote_ne c2 rest h2] at hx
        rcases List.mem_cons.mp hx with rfl | hx2
        · right; rfl
        · rcases List.mem_cons.mp hx2 with rfl | hx3
          · right; rfl
          · rcases ih2 hx3 with h | h
            · left; exact List.mem_cons_of_mem _ h
            · right; exact h
    · rw [doubleUnescapedQuotes_cons_ne c1 c2 rest h1] at hx
      rcases List.mem_cons.mp hx with rfl | hx2
      · left; exact List.mem_cons_self x _
      · rcases ih2 hx2 with h | h
        · left; exact List.mem_cons_of_mem _ h
        · right; exact h

/-! ### Per-line classification and per-line fixes

Direct translations of `_line_has_odd_quotes`, `_line_has_even_quotes`,
`_remove_odd_quotes_from_line` and `_double_even_quotes_in_line`: split
the line on `;`, inspect each field's residual unescaped-quote count. -/

def lineHasOddQuotes (line : List Char) : Bool :=
  if '"' ∈ line then
    (splitOnChar ';' line).any fun field => residualQuotes field % 2 == 1
  else false

def lineHasEvenQuotes (line : List Char) : Bool :=
  if '"' ∈ line then
    (splitOnChar ';' line).any fun field =>
      decide (0 < residualQuotes field) && residualQuotes field % 2 == 0
  else false

def removeOddQuotesFromLine (line : List Char) : List Char :=
  if '"' ∈ line then
    joinChar ';' ((splitOnChar ';' line).map fun field =>
      if residualQuotes field % 2 = 1 then removeUnescapedQuotes field else field)
  else line

def doubleEvenQuotesInLine (line : List Char) : List Char :=
  if '"' ∈ line then
    joinChar ';' ((splitOnChar ';' line).map fun field =>
      if 0 < residualQuotes field ∧ residualQuotes field % 2 = 0
      then doubleUnescapedQuotes field else field)
  else line

theorem semicolon_not_mem_oddFix (line : List Char) (field : List Char)
    (hf : field ∈ splitOnChar ';' line) :
    ';' ∉ (if residualQuotes field % 2 = 1 then removeUnescapedQuotes field else field) := by
  have hfree := splitOnChar_sep_free ';' line field hf
  split
  · exact fun hm => hfree (mem_removeUnescapedQuotes field ';' hm)
  · exact hfree

theorem semicolon_not_mem_evenFix (line : List Char) (field : List Char)
    (hf : field ∈ splitOnChar ';' line) :
    ';' ∉ (if 0 < residualQuotes field ∧ residualQuotes field % 2 = 0
           then doubleUnescapedQuotes field else field) := by
  have hfree := splitOnChar_sep_free ';' line field hf
  split
  · intro hm
    rcases mem_doubleUnescapedQuotes field ';' hm with h | h
    · exact hfree h
    · exact absurd h (by decide)
  · exact hfree


theorem oddFix_field_not_odd (f : List Char) :
    (residualQuotes (if residualQuotes f % 2 = 1 then removeUnescapedQuotes f else f) % 2 == 1)
      = false := by
  by_cases hodd : residualQuotes f % 2 = 1
  · rw [if_pos hodd, residualQuotes_remove]
    decide
  · rw [if_neg hodd]
    simpa using hodd

theorem evenFix_field_not_even (f : List Char) :
    (decide (0 < residualQuotes
        (if 0 < residualQuotes f ∧ residualQuotes f % 2 = 0
         then doubleUnescapedQuotes f else f)) &&
      residualQuotes
        (if 0 < residualQuotes f ∧ residualQuotes f % 2 = 0
         then doubleUnescapedQuotes f else f) % 2 == 0) = false := by
  by_cases heven : 0 < residualQuotes f ∧ residualQuotes f % 2 = 0
  · rw [if_pos heven, residualQuotes_double]
    decide
  · rw [if_neg heven]
    rcases Decidable.not_and_iff_or_not.mp heven with h | h
    · simp only [Bool.and_eq_false_iff]
      left
      simpa using h
    · simp only [Bool.and_eq_false_iff]
      right
      simpa using h

/-- After `_remove_odd_quotes_from_line`, no field of the line has an odd
residual unescaped-quote count: the redundant-quotes classifier no longer
flags the line. -/
theorem lineHasOddQuotes_removeOdd (line : List Char) :
    lineHasOddQuotes (removeOddQuotesFromLine line) = false := by
  unfold removeOddQuotesFromLine
  by_cases hq : '"' ∈ line
  · rw [if_pos hq]
    unfold lineHasOddQuotes
    split
    · rcases h0 : splitOnChar ';' line with _ | ⟨f0, fs⟩
      · exact absurd h0 (by unfold splitOnChar; simp)
      · have hmem0 : f0 ∈ splitOnChar ';' line := by
          rw [h0]; exact List.mem_cons_self f0 fs
        have hmemtail : ∀ f ∈ fs, f ∈ splitOnChar ';' line := by
          intro f hf; rw [h0]; exact List.mem_cons_of_mem f0 hf
        rw [List.map_cons]
        rw [splitOnChar_joinChar ';' _ _
          (semicolon_not_mem_oddFix line f0 hmem0)
          (by
            intro q hq2
            rcases List.mem_map.mp hq2 with ⟨f, hfmem, rfl⟩
            exact semicolon_not_mem_oddFix line f (hmemtail f hfmem))]
        rw [List.any_eq_false]
        intro g hg
        rcases List.mem_cons.mp hg with rfl | hg2
        · simp only [Bool.not_eq_true]; exact oddFix_field_not_odd f0
        · rcases List.mem_map.mp hg2 with ⟨f, _, rfl⟩
          simp only [Bool.not_eq_true]; exact oddFix_field_not_odd f
    · rfl
  · rw [if_neg hq]
    unfold lineHasOddQuotes
    rw [if_neg hq]

/-- After `_double_even_quotes_in_line`, no field of the line has a nonzero
even residual unescaped-quote count: the malformed-quotes classifier no
longer flags the line. -/
theorem lineHasEvenQuotes_doubleEven (line : List Char) :
    lineHasEvenQuotes (doubleEvenQuotesInLine line) = false := by
  unfold doubleEvenQuotesInLine
  by_cases hq : '"' ∈ line
  · rw [if_pos hq]
    unfold lineHasEvenQuotes
    split
    · rcases h0 : splitOnChar ';' line with _ | ⟨f0, fs⟩
      · exact absurd h0 (by unfold splitOnChar; simp)
      · have hmem0 : f0 ∈ splitOnChar ';' line := by
          rw [h0]; exact List.mem_cons_self f0 fs
        have hmemtail : ∀ f ∈ fs, f ∈ splitOnChar ';' line := by
          intro f hf; rw [h0]; exact List.mem_cons_of_mem f0 hf
        rw [List.map_cons]
        rw [splitOnChar_joinChar ';' _ _
          (semicolon_not_mem_evenFix line f0 hmem0)
          (by
            intro q hq2
            rcases List.mem_map.mp hq2 with ⟨f, hfmem, rfl⟩
            exact semicolon_not_mem_evenFix line f (hmemtail f hfmem))]
        rw [List.any_eq_false]
        intro g hg
        rcases List.mem_cons.mp hg with rfl | hg2
        · simp only [Bool.not_eq_true]; exact evenFix_field_not_even f0
        · rcases List.mem_map.mp hg2 with ⟨f, _, rfl⟩
          simp only [Bool.not_eq_true]; exact evenFix_field_not_even f
    · rfl
  · rw [if_neg hq]
    unfold lineHasEvenQuotes
    rw [if_neg hq]

theorem nl_not_mem_removeOdd (line : List Char) (h : '\n' ∉ line) :
    '\n' ∉ removeOddQuotesFromLine line := by
  unfold removeOddQuotesFromLine
  split
  · intro hm
    rcases mem_joinChar ';' '\n' _ hm with he | ⟨p, hp, hx⟩
    · exact absurd he (by decide)
    · rcases List.mem_map.mp hp with ⟨f, hfmem, rfl⟩
      have hsub := splitOnChar_mem_subset ';' line f hfmem
      revert hx
      split
      · exact fun hx => h (hsub '\n' (mem_removeUnescapedQuotes f '\n' hx))
      · exact fun hx => h (hsub '\n' hx)
  · exact h

theorem nl_not_mem_doubleEven (line : List Char) (h : '\n' ∉ line) :
    '\n' ∉ doubleEvenQuotesInLine line := by
  unfold doubleEvenQuotesInLine
  split
  · intro hm
    rcases mem_joinChar ';' '\n' _ hm with he | ⟨p, hp, hx⟩
    · exact absurd he (by decide)
    · rcases List.mem_map.mp hp with ⟨f, hfmem, rfl⟩
      have hsub := splitOnChar_mem_subset ';' line f hfmem
      revert hx
      split
      · intro hx
        rcases mem_doubleUnescapedQuotes f '\n' hx with h2 | h2
        · exact h (hsub '\n' h2)
        · exact absurd h2 (by decide)
      · exact fun hx => h (hsub '\n' hx)
  · exact h

/-! ### File-level classification and fixes

`collectAffected` is the shared loop of `_check_redundant_quotes` and
`_check_malformed_quotes`: enumerate the lines of `content.split("\n")`
from 1, skip the header (line 1) and blank lines, and collect the
1-indexed numbers of the lines the per-line predicate flags.
`fixLinesAux` is the shared loop of `_fix_redundant_quotes` and
`_fix_malformed_quotes`: header and blank lines pass through verbatim,
every other line is rewritten by the per-line fix, and the numbers of the
lines that actually changed are collected. -/

def splitLines (c : List Char) : List (List Char) := splitOnChar '\n' c

def collectAffected (pred : List Char → Bool) : Nat → List (List Char) → List Nat
  | _, [] => []
  | n, l :: rest =>
    if n = 1 then collectAffected pred (n + 1) rest
    else if isBlank l then collectAffected pred (n + 1) rest
    else if pred l then n :: collectAffected pred (n + 1) rest
    else collectAffected pred (n + 1) rest

def checkRedundantAffected (c : List Char) : List Nat :=
  collectAffected lineHasOddQuotes 1 (splitLines c)

def checkMalformedAffected (c : List Char) : List Nat :=
  collectAffected lineHasEvenQuotes 1 (splitLines c)

def fixLinesAux (f : List Char → List Char) : Nat → List (List Char) → List (List Char) × List Nat
  | _, [] => ([], [])
  | n, l :: rest =>
    let r := fixLinesAux f (n + 1) rest
    if n = 1 then (l :: r.1, r.2)
    else if isBlank l then (l :: r.1, r.2)
    else if f l ≠ l then (f l :: r.1, n :: r.2)
    else (f l :: r.1, r.2)

def applyLineFix (f : List Char → List Char) (c : List Char) : List Char × List Nat :=
  (joinChar '\n' (fixLinesAux f 1 (splitLines c)).1, (fixLinesAux f 1 (splitLines c)).2)

/-- Content written by `_fix_redundant_quotes`. -/
def fixRedundantContent (c : List Char) : List Char :=
  (applyLineFix removeOddQuotesFromLine c).1

/-- Content written by `_fix_malformed_quotes`. -/
def fixMalformedContent (c : List Char) : List Char :=
  (applyLineFix doubleEvenQuotesInLine c).1

theorem fixLinesAux_cons (f : List Char → List Char) (n : Nat) (l : List Char)
    (rest : List (List Char)) :
    fixLinesAux f n (l :: rest) =
      let r := fixLinesAux f (n + 1) rest
      if n = 1 then (l :: r.1, r.2)
      else if isBlank l then (l :: r.1, r.2)
      else if f l ≠ l then (f l :: r.1, n :: r.2)
      else (f l :: r.1, r.2) := rfl

theorem fixLinesAux_length (f : List Char → List Char) :
    ∀ (ls : List (List Char)) (n : Nat), (fixLinesAux f n ls).1.length = ls.length := by
  intro ls
  induction ls with
  | nil => intro n; rfl
  | cons l rest ih =>
    intro n
    rw [fixLinesAux_cons]
    split
    · simp [ih]
    · split
      · simp [ih]
      · split
        · simp [ih]
        · simp [ih]

theorem mem_fixLinesAux (f : List Char → List Char) :
    ∀ (ls : List (List Char)) (n : Nat) (l' : List Char),
      l' ∈ (fixLinesAux f n ls).1 → ∃ l ∈ ls, l' = l ∨ l' = f l := by
  intro ls
  induction ls with
  | nil => intro n l' h; simp [fixLinesAux] at h
  | cons l rest ih =>
    intro n l' h
    rw [fixLinesAux_cons] at h
    have step : ∀ x : List Char, l' ∈ x :: (fixLinesAux f (n + 1) rest).1 →
        (l' = x) ∨ ∃ a ∈ rest, l' = a ∨ l' = f a := by
      intro x hx
      rcases List.mem_cons.mp hx with rfl | h2
      · left; rfl
      · right; exact ih (n + 1) l' h2
    split at h
    · rcases step l h with rfl | ⟨a, ha, hor⟩
      · exact ⟨l', List.mem_cons_self l' rest, Or.inl rfl⟩
      · exact ⟨a, List.mem_cons_of_mem l ha, hor⟩
    · split at h
      · rcases step l h with rfl | ⟨a, ha, hor⟩
        · exact ⟨l', List.mem_cons_self l' rest, Or.inl rfl⟩
        · exact ⟨a, List.mem_cons_of_mem l ha, hor⟩
      · split at h
        · rcases step (f l) h with rfl | ⟨a, ha, hor⟩
          · exact ⟨l, List.mem_cons_self l rest, Or.inr rfl⟩
          · exact ⟨a, List.mem_cons_of_mem l ha, hor⟩
        · rcases step (f l) h with rfl | ⟨a, ha, hor⟩
          · exact ⟨l, List.mem_cons_self l rest, Or.inr rfl⟩
          · exact ⟨a, List.mem_cons_of_mem l ha, hor⟩

/-- Re-splitting the content written by a per-line fix recovers exactly the
fixed line list, provided the per-line fix introduces no newline. -/
theorem splitLines_applyLineFix (f : List Char → List Char)
    (hf : ∀ l, '\n' ∉ l → '\n' ∉ f l) (c : List Char) :
    splitLines ((applyLineFix f c).1) = (fixLinesAux f 1 (splitLines c)).1 := by
  unfold applyLineFix
  have hfree : ∀ l' ∈ (fixLinesAux f 1 (splitLines c)).1, '\n' ∉ l' := by
    intro l' hl'
    rcases mem_fixLinesAux f (splitLines c) 1 l' hl' with ⟨l, hl, hor⟩
    have hnl : '\n' ∉ l := splitOnChar_sep_free '\n' c l hl
    rcases hor with rfl | rfl
    · exact hnl
    · exact hf l hnl
  rcases hx : (fixLinesAux f 1 (splitLines c)).1 with _ | ⟨q, qs⟩
  · have : (splitLines c).length = 0 := by
      rw [← fixLinesAux_length f (splitLines c) 1, hx]; rfl
    exact absurd this (by unfold splitLines splitOnChar; simp)
  · rw [hx] at hfree
    exact splitOnChar_joinChar '\n' q qs (hfree q (List.mem_cons_self q qs))
      (fun r hr => hfree r (List.mem_cons_of_mem q hr))

/-- If the per-line fix leaves no line that the per-line predicate flags,
the classifier run on the fixed line list reports no affected lines. -/
theorem collectAffected_fixLinesAux (pred : List Char → Bool) (f : List Char → List Char)
    (hpf : ∀ l, pred (f l) = false) :
    ∀ (ls : List (List Char)) (n : Nat),
      collectAffected pred n (fixLinesAux f n ls).1 = [] := by
  intro ls
  induction ls with
  | nil => intro n; rfl
  | cons l rest ih =>
    intro n
    rw [fixLinesAux_cons]
    by_cases h1 : n = 1
    · rw [if_pos h1]
      show collectAffected pred n (l :: (fixLinesAux f (n + 1) rest).1) = []
      unfold collectAffected
      rw [if_pos h1]
      exact ih (n + 1)
    · rw [if_neg h1]
      by_cases hb : isBlank l
      · rw [if_pos hb]
        show collectAffected pred n (l :: (fixLinesAux f (n + 1) rest).1) = []
        unfold collectAffected
        rw [if_neg h1, if_pos hb]
        exact ih (n + 1)
      · rw [if_neg hb]
        have main : collectAffected pred n (f l :: (fixLinesAux f (n + 1) rest).1) = [] := by
          unfold collectAffected
          rw [if_neg h1]
          by_cases hbf : isBlank (f l)
          · rw [if_pos hbf]
            exact ih (n + 1)
          · rw [if_neg hbf, hpf l, if_neg (by simp)]
            exact ih (n + 1)
        split
        · exact main
        · exact main

/-- C7 core: after `_fix_redundant_quotes` has run, `_check_redundant_quotes`
finds no affected lines. -/
theorem checkRedundantAffected_fixRedundant (c : List Char) :
    checkRedundantAffected (fixRedundantContent c) = [] := by
  unfold checkRedundantAffected fixRedundantContent
  rw [splitLines_applyLineFix removeOddQuotesFromLine nl_not_mem_removeOdd c]
  exact collectAffected_fixLinesAux lineHasOddQuotes removeOddQuotesFromLine
    lineHasOddQuotes_removeOdd (splitLines c) 1

/-- C6 core: after `_fix_malformed_quotes` has run, `_check_malformed_quotes`
finds no affected lines. -/
theorem checkMalformedAffected_fixMalformed (c : List Char) :
    checkMalformedAffected (fixMalformedContent c) = [] := by
  unfold checkMalformedAffected fixMalformedContent
  rw [splitLines_applyLineFix doubleEvenQuotesInLine nl_not_mem_doubleEven c]
  exact collectAffected_fixLinesAux lineHasEvenQuotes doubleEvenQuotesInLine
    lineHasEvenQuotes_doubleEven (splitLines c) 1

/-! ### Raw line counting and the post-repair sanity check

`pythonLineCount` models `sum(1 for _ in f)` on a text file: each `'\n'`
terminates a line, and a final non-terminated, nonempty segment counts as
one more line (the empty file has zero lines).  `validateFixSanity` is
`_validate_fix_sanity`: the repair is rejected when the repaired file has
fewer than half as many raw lines as the backup (`fixed < backup * 0.5`
on integers is exactly `2 * fixed < backup`; the percentage shown by the
Python message is float formatting and is omitted from the message
model). -/

def pythonLineCount : List Char → Nat
  | [] => 0
  | [_] => 1
  | c :: rest => (if c = '\n' then 1 else 0) + pythonLineCount rest

def validateFixSanity (fixedC backupC : List Char) : Bool × String :=
  if 2 * pythonLineCount fixedC < pythonLineCount backupC then
    (false, "Too many lines removed: " ++ toString (pythonLineCount backupC) ++ " -> "
      ++ toString (pythonLineCount fixedC))
  else (true, "Sanity check passed")

theorem pythonLineCount_cons₂ (c d : Char) (rest : List Char) :
    pythonLineCount (c :: d :: rest) =
      (if c = '\n' then 1 else 0) + pythonLineCount (d :: rest) := rfl

theorem pythonLineCount_cons_ne_nil (c : Char) (l : List Char) (h : l ≠ []) :
    pythonLineCount (c :: l) = (if c = '\n' then 1 else 0) + pythonLineCount l := by
  cases l with
  | nil => exact absurd rfl h
  | cons d ds => rfl

theorem pythonLineCount_no_nl (l : List Char) (h : '\n' ∉ l) :
    pythonLineCount l = if l = [] then 0 else 1 := by
  induction l with
  | nil => rfl
  | cons c rest ih =>
    cases rest with
    | nil => rfl
    | cons d ds =>
      have hc : c ≠ '\n' := fun e => h (e ▸ List.mem_cons_self c _)
      have hrest : '\n' ∉ d :: ds := fun e => h (List.mem_cons_of_mem c e)
      rw [pythonLineCount_cons₂, if_neg hc, ih hrest]
      simp

theorem pythonLineCount_append_nl (p rest : List Char) (h : '\n' ∉ p) :
    pythonLineCount (p ++ '\n' :: rest) = 1 + pythonLineCount rest := by
  induction p with
  | nil =>
    cases rest with
    | nil => rfl
    | cons d ds =>
      rw [List.nil_append, pythonLineCount_cons_ne_nil '\n' (d :: ds) (by simp)]
      simp
  | cons c cs ih =>
    have hc : c ≠ '\n' := fun e => h (e ▸ List.mem_cons_self c cs)
    have hcs : '\n' ∉ cs := fun e => h (List.mem_cons_of_mem c e)
    rw [List.cons_append, pythonLineCount_cons_ne_nil c _ (by simp), if_neg hc, ih hcs]
    omega

/-- Raw line count of a newline-joined list of newline-free lines: one line
per part, except that an empty final part only marks the trailing newline
of the previous line. -/
theorem pythonLineCount_join_concat :
    ∀ (parts : List (List Char)) (last : List Char),
      (∀ p ∈ parts, '\n' ∉ p) → '\n' ∉ last →
      pythonLineCount (joinChar '\n' (parts ++ [last])) =
        parts.length + (if last = [] then 0 else 1) := by
  intro parts
  induction parts with
  | nil =>
    intro last _ hlast
    rw [List.nil_append]
    show pythonLineCount last = 0 + _
    rw [pythonLineCount_no_nl last hlast]
    simp
  | cons p ps ih =>
    intro last hp hlast
    obtain ⟨q, qs, hqq⟩ : ∃ q qs, ps ++ [last] = q :: qs := by
      cases ps with
      | nil => exact ⟨last, [], rfl⟩
      | cons a as => exact ⟨a, as ++ [last], rfl⟩
    rw [List.cons_append, hqq, joinChar_cons₂, ← hqq,
      pythonLineCount_append_nl _ _ (hp p (List.mem_cons_self p ps)),
      ih last (fun r hr => hp r (List.mem_cons_of_mem p hr)) hlast]
    simp [Nat.add_assoc, Nat.add_comm 1]

theorem fixLinesAux_append (f : List Char → List Char) :
    ∀ (xs ys : List (List Char)) (n : Nat),
      (fixLinesAux f n (xs ++ ys)).1 =
        (fixLinesAux f n xs).1 ++ (fixLinesAux f (n + xs.length) ys).1 := by
  intro xs
  induction xs with
  | nil => intro ys n; simp [fixLinesAux]
  | cons x xs' ih =>
    intro ys n
    rw [List.cons_append, fixLinesAux_cons, fixLinesAux_cons]
    have harith : n + 1 + xs'.length = n + (x :: xs').length := by
      simp [List.length_cons]; omega
    split
    · simp only [ih ys (n + 1), harith, List.cons_append]
    · split
      · simp only [ih ys (n + 1), harith, List.cons_append]
      · split
        · simp only [ih ys (n + 1), harith, List.cons_append]
        · simp only [ih ys (n + 1), harith, List.cons_append]

theorem fixLinesAux_single (f : List Char → List Char) (n : Nat) (l : List Char) :
    (fixLinesAux f n [l]).1 =
      [if n = 1 then l else if isBlank l then l else f l] := by
  rw [fixLinesAux_cons]
  split
  · rfl
  · split
    · rfl
    · split
      · rfl
      · rfl

/-- C10 core: a per-line fix that introduces no newline can lose at most the
final non-terminated line (when the fix empties it), so the repaired raw
line count is always at least half the original one. -/
theorem pythonLineCount_applyLineFix_ge (f : List Char → List Char)
    (hf : ∀ l, '\n' ∉ l → '\n' ∉ f l) (c : List Char) :
    pythonLineCount c ≤ 2 * pythonLineCount ((applyLineFix f c).1) := by
  obtain ⟨init, last, hparts⟩ : ∃ init last, splitLines c = init ++ [last] := by
    rcases List.eq_nil_or_concat (splitLines c) with h | ⟨L, b, h⟩
    · exact absurd h (by unfold splitLines splitOnChar; simp)
    · exact ⟨L, b, by simpa [List.concat_eq_append] using h⟩
  have hfree : ∀ p ∈ splitLines c, '\n' ∉ p := splitOnChar_sep_free '\n' c
  have hfree_init : ∀ p ∈ init, '\n' ∉ p := by
    intro p hp
    exact hfree p (hparts ▸ List.mem_append_left [last] hp)
  have hfree_last : '\n' ∉ last := by
    exact hfree last (hparts ▸ List.mem_append_right init (List.mem_cons_self last []))
  -- the original content, recounted through its line decomposition
  have hc : pythonLineCount c = init.length + (if last = [] then 0 else 1) := by
    conv_lhs => rw [← joinChar_splitOnChar '\n' c]
    show pythonLineCount (joinChar '\n' (splitLines c)) = _
    rw [hparts]
    exact pythonLineCount_join_concat init last hfree_init hfree_last
  -- the fixed content, recounted the same way
  set L' : List Char :=
    if 1 + init.length = 1 then last else if isBlank last then last else f last with hL'
  have hfix : (fixLinesAux f 1 (splitLines c)).1 = (fixLinesAux f 1 init).1 ++ [L'] := by
    rw [hparts, fixLinesAux_append f init [last] 1, fixLinesAux_single]
  have hfree_fixinit : ∀ p ∈ (fixLinesAux f 1 init).1, '\n' ∉ p := by
    intro p hp
    rcases mem_fixLinesAux f init 1 p hp with ⟨l, hl, hor⟩
    have hnl : '\n' ∉ l := hfree_init l hl
    rcases hor with rfl | rfl
    · exact hnl
    · exact hf l hnl
  have hfree_L' : '\n' ∉ L' := by
    rw [hL']
    split
    · exact hfree_last
    · split
      · exact hfree_last
      · exact hf last hfree_last
  have hfixcount : pythonLineCount ((applyLineFix f c).1) =
      init.length + (if L' = [] then 0 else 1) := by
    unfold applyLineFix
    rw [hfix, pythonLineCount_join_concat _ L' hfree_fixinit hfree_L',
      fixLinesAux_length]
  rw [hc, hfixcount]
  by_cases hlast : last = []
  · have hL'nil : L' = [] := by
      subst hlast
      rw [hL']
      split
      · rfl
      · simp [isBlank]
    rw [if_pos hlast, if_pos hL'nil]
    omega
  · by_cases hL'e : L' = []
    · have hinit : init ≠ [] := by
        intro h0
        rw [hL', h0] at hL'e
        simp at hL'e
        exact hlast hL'e
      have : 1 ≤ init.length := by
        cases init with
        | nil => exact absurd rfl hinit
        | cons a as => simp
      rw [if_neg hlast, if_pos hL'e]
      omega
    · rw [if_neg hlast, if_neg hL'e]
      omega

/-- C10: with the backup equal to the pre-repair content, the sanity check
always passes after `_fix_redundant_quotes` or `_fix_malformed_quotes`. -/
theorem validateFixSanity_fix_passes (c : List Char) :
    validateFixSanity (fixRedundantContent c) c = (true, "Sanity check passed") ∧
      validateFixSanity (fixMalformedContent c) c = (true, "Sanity check passed") := by
  constructor
  · unfold validateFixSanity fixRedundantContent
    rw [if_neg (by
      have := pythonLineCount_applyLineFix_ge removeOddQuotesFromLine nl_not_mem_removeOdd c
      omega)]
  · unfold validateFixSanity fixMalformedContent
    rw [if_neg (by
      have := pythonLineCount_applyLineFix_ge doubleEvenQuotesInLine nl_not_mem_doubleEven c
      omega)]

/-! ### Result models (`validation/models.py`)

`ValidationResult` and `FixResult` mirror the pydantic models field by
field; the wall-clock `timestamp` default is the only field omitted.
`validationResultFields` records the full field list of the pydantic
`ValidationResult` schema, `timestamp` included. -/

inductive ValidationStatus
  | passed
  | failed
  | fixed
deriving DecidableEq

inductive ValidationStrategy
  | fix
  | ignore
deriving DecidableEq

structure ValidationResult where
  file_path : String
  validation_name : String
  status : ValidationStatus
  strategy_applied : ValidationStrategy
  dataset_name : Option String
  details : String
  affected_lines : List Nat
  fixes_applied : Nat
deriving DecidableEq

structure FixResult where
  file_path : String
  fix_name : String
  lines_fixed : Nat
  lines_removed : List Nat
  success : Bool
  details : String
deriving DecidableEq

def validationResultFields : List String :=
  ["file_path", "validation_name", "status", "strategy_applied", "dataset_name",
   "details", "affected_lines", "fixes_applied", "timestamp"]

/-! ### The two classifier checks

`_check_redundant_quotes` / `_check_malformed_quotes`.  Reading the file
under the configured encoding is modelled by an `Except String` argument:
`.error e` is a read or decode failure whose exception text is `e`. -/

def checkRedundantQuotes (p : String) (readRes : Except String (List Char))
    (dn : Option String) : ValidationResult :=
  match readRes with
  | .error e =>
    { file_path := p, validation_name := "check_redundant_quotes",
      status := .failed, strategy_applied := .ignore, dataset_name := dn,
      details := "Error reading file: " ++ e, affected_lines := [], fixes_applied := 0 }
  | .ok content =>
    let aff := checkRedundantAffected content
    if aff ≠ [] then
      { file_path := p, validation_name := "check_redundant_quotes",
        status := .failed, strategy_applied := .ignore, dataset_name := dn,
        details := "Found " ++ toString aff.length ++ " lines with redundant (odd) quotes",
        affected_lines := aff, fixes_applied := 0 }
    else
      { file_path := p, validation_name := "check_redundant_quotes",
        status := .passed, strategy_applied := .ignore, dataset_name := dn,
        details := "No redundant quotes detected", affected_lines := [], fixes_applied := 0 }

def checkMalformedQuotes (p : String) (readRes : Except String (List Char))
    (dn : Option String) : ValidationResult :=
  match readRes with
  | .error e =>
    { file_path := p, validation_name := "check_malformed_quotes",
      status := .failed, strategy_applied := .ignore, dataset_name := dn,
      details := "Error reading file: " ++ e, affected_lines := [], fixes_applied := 0 }
  | .ok content =>
    let aff := checkMalformedAffected content
    if aff ≠ [] then
      { file_path := p, validation_name := "check_malformed_quotes",
        status := .failed, strategy_applied := .ignore, dataset_name := dn,
        details := "Found " ++ toString aff.length ++ " lines with malformed (even) quotes",
        affected_lines := aff, fixes_applied := 0 }
    else
      { file_path := p, validation_name := "check_malformed_quotes",
        status := .passed, strategy_applied := .ignore, dataset_name := dn,
        details := "No malformed quotes detected", affected_lines := [], fixes_applied := 0 }

/-! ### The backup store (`utils.backup_file` / `utils.restore_file`)

The store maps a `(day, file)` key to the backed-up bytes.  `backup_file`
skips the copy when a backup for the same day already exists, returning
the existing backup; otherwise it copies the current content.
`restore_file` is a plain copy of the backup bytes over the file and is
inlined where the repair engine rolls back. -/

def BackupStore : Type := List ((String × String) × List Char)

instance : DecidableEq BackupStore := by
  unfold BackupStore
  infer_instance

def bkLookup (k : String × String) : BackupStore → Option (List Char)
  | [] => none
  | (k', v) :: rest => if k' = k then some v else bkLookup k rest

def backupFile (day p : String) (content : List Char) (st : BackupStore) :
    BackupStore × List Char :=
  match bkLookup (day, p) st with
  | some b => (st, b)
  | none => (((day, p), content) :: st, content)

/-- The file-system state threaded through the repair engine: the content
of the file under repair, today's date string, the file path, and the
backup store. -/
structure FsState where
  fileContent : List Char
  day : String
  path : String
  store : BackupStore
deriving DecidableEq

/-! ### The repair engine (`_run_fix` / `_run_ignore`)

`runFixG` is `RawDataValidator._run_fix`; the registry dispatch of check
and fix methods is a parameter (`checkAff`, `lineFix`, `fixDetails`,
`fixMethodName`), instantiated with the redundant- or malformed-quote
method pair.  `backupErr = some e` injects an exception with text `e`
raised while creating the backup. -/

def runFixG (checkAff : List Char → List Nat) (lineFix : List Char → List Char)
    (fixDetails : Nat → String) (validationName fixMethodName : String)
    (backupErr : Option String) (s : FsState) : FsState × FixResult :=
  if checkAff s.fileContent = [] then
    (s, { file_path := s.path, fix_name := "fix_" ++ validationName, lines_fixed := 0,
          lines_removed := [], success := true,
          details := "No issues found, file not modified" })
  else
    match backupErr with
    | some e =>
      (s, { file_path := s.path, fix_name := "fix_" ++ validationName, lines_fixed := 0,
            lines_removed := [], success := false, details := "Backup failed: " ++ e })
    | none =>
      let bk := backupFile s.day s.path s.fileContent s.store
      let fx := applyLineFix lineFix s.fileContent
      let r : FixResult :=
        { file_path := s.path, fix_name := fixMethodName, lines_fixed := fx.2.length,
          lines_removed := fx.2, success := true, details := fixDetails fx.2.length }
      let sn := validateFixSanity fx.1 bk.2
      if sn.1 then
        ({ s with store := bk.1, fileContent := fx.1 }, r)
      else
        ({ s with store := bk.1, fileContent := bk.2 },
         { r with success := false, details := "Fix reverted - " ++ sn.2 })

/-! `_ignore_affected_lines`: remove the listed 1-indexed lines.  The code
detects the trailing newline, splits, drops a final empty segment, keeps
line 0 (the header), silently drops blank lines, removes the listed line
numbers, and restores the trailing newline. -/

def ignoreLoop (toRemove : List Nat) : Nat → List (List Char) → List (List Char) × List Nat
  | _, [] => ([], [])
  | i, l :: rest =>
    let r := ignoreLoop toRemove (i + 1) rest
    if i = 0 then (l :: r.1, r.2)
    else if isBlank l then r
    else if toRemove.contains (i + 1) then (r.1, (i + 1) :: r.2)
    else (l :: r.1, r.2)

def ignoreLines (c : List Char) : List (List Char) :=
  let ls := splitLines c
  if ls.getLast? = some [] then ls.dropLast else ls

def ignoreAffectedContent (affected : List Nat) (c : List Char) : List Char × List Nat :=
  if affected = [] then (c, [])
  else
    let r := ignoreLoop affected 0 (ignoreLines c)
    (joinChar '\n' r.1 ++ (if c.getLast? = some '\n' then ['\n'] else []), r.2)

/-- `RawDataValidator._run_ignore`. -/
def runIgnore (backupErr : Option String) (affected : List Nat)
    (validationName : String) (s : FsState) : FsState × FixResult :=
  if affected = [] then
    (s, { file_path := s.path, fix_name := "ignore_" ++ validationName, lines_fixed := 0,
          lines_removed := [], success := true, details := "No lines to remove" })
  else
    match backupErr with
    | some e =>
      (s, { file_path := s.path, fix_name := "ignore_" ++ validationName, lines_fixed := 0,
            lines_removed := [], success := false, details := "Backup failed: " ++ e })
    | none =>
      let bk := backupFile s.day s.path s.fileContent s.store
      let ig := ignoreAffectedContent affected s.fileContent
      let r : FixResult :=
        { file_path := s.path, fix_name := "ignore_" ++ validationName,
          lines_fixed := ig.2.length, lines_removed := ig.2, success := true,
          details := "Removed " ++ toString ig.2.length ++ " lines" }
      let sn := validateFixSanity ig.1 bk.2
      if sn.1 then ({ s with store := bk.1, fileContent := ig.1 }, r)
      else ({ s with store := bk.1, fileContent := bk.2 },
            { r with success := false, details := "IGNORE reverted - " ++ sn.2 })

/-! ### `validate_and_fix`

The orchestration loop of `RawDataValidator.validate_and_fix`: it iterates
over the `validations` dict in insertion order (modelled as an association
list), skips unregistered names, runs the check on the current file
content, and either records a passed result or applies the configured
strategy.  Both registered validations have fix methods, so the
fallback-to-IGNORE branch for a missing fix method is unreachable and not
modelled.  The third component of the result is the trace of check names
in execution order. -/

def registeredChecks : List String := ["check_redundant_quotes", "check_malformed_quotes"]

def runCheckFor (name p : String) (content : List Char) (dn : Option String) :
    ValidationResult :=
  if name = "check_redundant_quotes" then checkRedundantQuotes p (.ok content) dn
  else checkMalformedQuotes p (.ok content) dn

def checkAffFor (name : String) : List Char → List Nat :=
  if name = "check_redundant_quotes" then checkRedundantAffected else checkMalformedAffected

def lineFixFor (name : String) : List Char → List Char :=
  if name = "check_redundant_quotes" then removeOddQuotesFromLine else doubleEvenQuotesInLine

def fixMethodNameFor (name : String) : String :=
  if name = "check_redundant_quotes" then "fix_redundant_quotes" else "fix_malformed_quotes"

def fixDetailsFor (name : String) (n : Nat) : String :=
  if name = "check_redundant_quotes"
  then "Removed redundant quotes in " ++ toString n ++ " lines"
  else "Doubled malformed quotes in " ++ toString n ++ " lines"

def resultFromFix (p name : String) (strat : ValidationStrategy) (dn : Option String)
    (fr : FixResult) : ValidationResult :=
  { file_path := p, validation_name := name,
    status := if 0 < fr.lines_fixed then .fixed else .passed,
    strategy_applied := strat, dataset_name := dn, details := fr.details,
    affected_lines := fr.lines_removed, fixes_applied := fr.lines_fixed }

def stepFor (name : String) (strat : ValidationStrategy) (dn : Option String)
    (s : FsState) : FsState × FixResult :=
  if strat = ValidationStrategy.fix then
    runFixG (checkAffFor name) (lineFixFor name) (fixDetailsFor name) name
      (fixMethodNameFor name) none s
  else runIgnore none (runCheckFor name s.path s.fileContent dn).affected_lines name s

def validateAndFix (dn : Option String) :
    List (String × ValidationStrategy) → FsState →
      FsState × List ValidationResult × List String
  | [], s => (s, [], [])
  | (name, strat) :: rest, s =>
    if name ∈ registeredChecks then
      if (runCheckFor name s.path s.fileContent dn).status = ValidationStatus.passed then
        ((validateAndFix dn rest s).1,
         { runCheckFor name s.path s.fileContent dn with strategy_applied := strat }
           :: (validateAndFix dn rest s).2.1,
         name :: (validateAndFix dn rest s).2.2)
      else
        ((validateAndFix dn rest (stepFor name strat dn s).1).1,
         resultFromFix s.path name strat dn (stepFor name strat dn s).2
           :: (validateAndFix dn rest (stepFor name strat dn s).1).2.1,
         name :: (validateAndFix dn rest (stepFor name strat dn s).1).2.2)
    else validateAndFix dn rest s

/-! ### Declarative characterization of the IGNORE line removal -/

def enumFrom {α : Type} : Nat → List α → List (Nat × α)
  | _, [] => []
  | n, a :: as => (n, a) :: enumFrom (n + 1) as

theorem ignoreLoop_cons (A : List Nat) (i : Nat) (l : List Char)
    (rest : List (List Char)) :
    ignoreLoop A i (l :: rest) =
      let r := ignoreLoop A (i + 1) rest
      if i = 0 then (l :: r.1, r.2)
      else if isBlank l then r
      else if A.contains (i + 1) then (r.1, (i + 1) :: r.2)
      else (l :: r.1, r.2) := rfl

/-- The imperative removal loop of `_ignore_affected_lines`, described as a
filter over the 1-indexed lines: the output keeps line 1 and every
non-blank line whose number is not listed, and the removal record is
exactly the non-blank non-header listed line numbers, in order. -/
theorem ignoreLoop_spec (A : List Nat) :
    ∀ (ls : List (List Char)) (i : Nat),
      ignoreLoop A i ls =
        (((enumFrom (i + 1) ls).filter
            (fun q => q.1 == 1 || (!isBlank q.2 && !A.contains q.1))).map Prod.snd,
         ((enumFrom (i + 1) ls).filter
            (fun q => q.1 != 1 && !isBlank q.2 && A.contains q.1)).map Prod.fst) := by
  intro ls
  induction ls with
  | nil => intro i; rfl
  | cons l rest ih =>
    intro i
    rw [ignoreLoop_cons, ih (i + 1)]
    show (if i = 0 then _ else _) = _
    rw [show enumFrom (i + 1) (l :: rest) = (i + 1, l) :: enumFrom (i + 1 + 1) rest from rfl]
    by_cases hi : i = 0
    · subst hi
      rw [if_pos rfl]
      rw [List.filter_cons, List.filter_cons]
      norm_num
    · rw [if_neg hi]
      have h1 : ((i + 1 == 1) : Bool) = false := by
        rw [beq_eq_false_iff_ne]
        omega
      have h2 : ((i + 1 != 1) : Bool) = true := by
        simp [bne, h1]
      rw [List.filter_cons, List.filter_cons]
      by_cases hb : isBlank l
      · simp [hb, h1, h2]
      · by_cases hc : A.contains (i + 1)
        · have hmem : i + 1 ∈ A := by simpa using hc
          simp [hb, hc, h1, h2, hmem]
        · have hmem : i + 1 ∉ A := by simpa using hc
          simp [hb, hc, h1, h2, hmem]

theorem runFixG_not_empty (checkAff : List Char → List Nat)
    (lineFix : List Char → List Char) (fixDetails : Nat → String)
    (vn fn : String) (s : FsState) (h : checkAff s.fileContent ≠ []) :
    runFixG checkAff lineFix fixDetails vn fn none s =
      (if (validateFixSanity (applyLineFix lineFix s.fileContent).1
            (backupFile s.day s.path s.fileContent s.store).2).1 then
        ({ s with
            store := (backupFile s.day s.path s.fileContent s.store).1
            fileContent := (applyLineFix lineFix s.fileContent).1 },
         { file_path := s.path, fix_name := fn,
           lines_fixed := (applyLineFix lineFix s.fileContent).2.length,
           lines_removed := (applyLineFix lineFix s.fileContent).2, success := true,
           details := fixDetails (applyLineFix lineFix s.fileContent).2.length })
      else
        ({ s with
            store := (backupFile s.day s.path s.fileContent s.store).1
            fileContent := (backupFile s.day s.path s.fileContent s.store).2 },
         { file_path := s.path, fix_name := fn,
           lines_fixed := (applyLineFix lineFix s.fileContent).2.length,
           lines_removed := (applyLineFix lineFix s.fileContent).2, success := false,
           details := "Fix reverted - "
             ++ (validateFixSanity (applyLineFix lineFix s.fileContent).1
                  (backupFile s.day s.path s.fileContent s.store).2).2 })) := by
  unfold runFixG
  rw [if_neg h]

/-! ## Claim theorems -/

/-- C1 counterexample: in the spec's scenario line `123;AB""CD"EF"";456`, the
field `AB""CD"EF""` does not strip to a residual count of 0 — removing the
non-overlapping `""` pairs left-to-right leaves `ABCD"EF` with one residual
quote — so `_line_has_odd_quotes` flags the line, contradicting the claimed
`Clean` classification. -/
theorem scenario_field_not_clean :
    residualQuotes "AB\"\"CD\"EF\"\"".toList = 1 ∧
      lineHasOddQuotes "123;AB\"\"CD\"EF\"\";456".toList = true := by
  constructor
  · decide
  · decide

/-- C1 (amended): for the input line `123;AB""CD"EF"";456`, the field
`AB""CD"EF""` has residual count 1 (odd), so `checkRedundantQuotes` flags
the line (line 2 of a file with a header) and `checkMalformedQuotes` does
not. -/
theorem scenario_line_flagged_redundant_only :
    residualQuotes (stripPairs "AB\"\"CD\"EF\"\"".toList) = 1 ∧
      checkRedundantAffected "h\n123;AB\"\"CD\"EF\"\";456".toList = [2] ∧
      checkMalformedAffected "h\n123;AB\"\"CD\"EF\"\";456".toList = [] := by
  refine ⟨?_, ?_, ?_⟩
  · decide
  · decide
  · decide

/-- C2 counterexample: for the file `h\na\n\nb\n` with affected list `[2]`,
`_ignore_affected_lines` also drops the blank line 3, which is not in the
list — the output is `h\nb\n`, not the `h\n\nb\n` the claim requires. -/
theorem ignore_drops_blank_line :
    (ignoreAffectedContent [2] "h\na\n\nb\n".toList).1 = "h\nb\n".toList ∧
      "h\nb\n".toList ≠ "h\n\nb\n".toList := by
  constructor
  · decide
  · decide

/-- C2 (amended): for every file and nonempty affected list, the IGNORE
removal keeps line 1 (the header) and exactly the non-blank lines whose
1-indexed numbers are not listed, in their original order; every blank
line other than the header is dropped as well; the removal record is
exactly the listed non-blank, non-header line numbers in order; and the
trailing-newline presence of the original file is preserved. -/
theorem ignore_exact_removal (affected : List Nat) (c : List Char)
    (h : affected ≠ []) :
    (ignoreAffectedContent affected c).1 =
        joinChar '\n'
          (((enumFrom 1 (ignoreLines c)).filter
              (fun q => q.1 == 1 || (!isBlank q.2 && !affected.contains q.1))).map Prod.snd)
          ++ (if c.getLast? = some '\n' then ['\n'] else []) ∧
      (ignoreAffectedContent affected c).2 =
        ((enumFrom 1 (ignoreLines c)).filter
            (fun q => q.1 != 1 && !isBlank q.2 && affected.contains q.1)).map Prod.fst := by
  unfold ignoreAffectedContent
  rw [if_neg h, ignoreLoop_spec affected (ignoreLines c) 0]
  exact ⟨rfl, rfl⟩

/-- C2 witness: the amended characterization applied to the concrete file
`h\na\n\nb\n` with affected list `[2]`. -/
theorem ignore_exact_removal_witness :
    (ignoreAffectedContent [2] "h\na\n\nb\n".toList).1 = "h\nb\n".toList ∧
      (ignoreAffectedContent [2] "h\na\n\nb\n".toList).2 = [2] := by
  have h := ignore_exact_removal [2] "h\na\n\nb\n".toList (by decide)
  constructor
  · rw [h.1]; decide
  · rw [h.2]; decide

def c3State : FsState :=
  { fileContent := "h\nab\"cd\"ef".toList, day := "2026-10-12", path := "f.csv",
    store := [] }

/-- C3 counterexample: `validate_and_fix` iterates the `validations` dict in
insertion order, so declaring `check_malformed_quotes` before
`check_redundant_quotes` executes the malformed check-and-fix first — the
execution order is not fixed to redundant-before-malformed regardless of
declaration. -/
theorem declared_order_reversed_executes_reversed :
    (validateAndFix none
        [("check_malformed_quotes", ValidationStrategy.fix),
         ("check_redundant_quotes", ValidationStrategy.fix)] c3State).2.2 =
      ["check_malformed_quotes", "check_redundant_quotes"] ∧
      ["check_malformed_quotes", "check_redundant_quotes"] ≠
        ["check_redundant_quotes", "check_malformed_quotes"] := by
  constructor
  · decide
  · decide

/-- C3 (amended): `validate_and_fix` executes the registered checks exactly
in the order in which they are declared in the `validations` argument
(unregistered names are skipped); the redundant-before-malformed order
holds exactly when the argument declares them in that order. -/
theorem validateAndFix_trace_order (dn : Option String)
    (vs : List (String × ValidationStrategy)) :
    ∀ s : FsState, (validateAndFix dn vs s).2.2 =
      (vs.map Prod.fst).filter (fun n => decide (n ∈ registeredChecks)) := by
  induction vs with
  | nil => intro s; rfl
  | cons p rest ih =>
    intro s
    obtain ⟨name, strat⟩ := p
    show (validateAndFix dn ((name, strat) :: rest) s).2.2 = _
    unfold validateAndFix
    by_cases hm : name ∈ registeredChecks
    · rw [if_pos hm, List.map_cons, List.filter_cons_of_pos (by simpa using hm)]
      split
      · show (name :: (validateAndFix dn rest s).2.2) = _
        rw [ih s]
      · show (name :: (validateAndFix dn rest (stepFor name strat dn s).1).2.2) = _
        rw [ih]
    · rw [if_neg hm, List.map_cons, List.filter_cons_of_neg (by simpa using hm)]
      exact ih s

/-- C4: in `_run_fix`, when the check reports affected lines and the backup
succeeds, the repair is rolled back exactly when the post-repair raw line
count is less than half the backup's raw line count: the file is restored
to the backup bytes and the `FixResult` reports `success = false` with a
details message carrying the sanity failure reason; otherwise the repaired
content stays on disk and the result is successful. -/
theorem runFix_sanity_rollback (checkAff : List Char → List Nat)
    (lineFix : List Char → List Char) (fixDetails : Nat → String)
    (vn fn : String) (s : FsState) (h : checkAff s.fileContent ≠ []) :
    (2 * pythonLineCount (applyLineFix lineFix s.fileContent).1 <
        pythonLineCount (backupFile s.day s.path s.fileContent s.store).2 →
      (runFixG checkAff lineFix fixDetails vn fn none s).1.fileContent =
          (backupFile s.day s.path s.fileContent s.store).2 ∧
        (runFixG checkAff lineFix fixDetails vn fn none s).2.success = false ∧
        (runFixG checkAff lineFix fixDetails vn fn none s).2.details =
          "Fix reverted - " ++
            (validateFixSanity (applyLineFix lineFix s.fileContent).1
              (backupFile s.day s.path s.fileContent s.store).2).2) ∧
      (¬ 2 * pythonLineCount (applyLineFix lineFix s.fileContent).1 <
          pythonLineCount (backupFile s.day s.path s.fileContent s.store).2 →
        (runFixG checkAff lineFix fixDetails vn fn none s).1.fileContent =
            (applyLineFix lineFix s.fileContent).1 ∧
          (runFixG checkAff lineFix fixDetails vn fn none s).2.success = true) := by
  have hout := runFixG_not_empty checkAff lineFix fixDetails vn fn s h
  constructor
  · intro hlt
    have hsn : (validateFixSanity (applyLineFix lineFix s.fileContent).1
        (backupFile s.day s.path s.fileContent s.store).2).1 = false := by
      unfold validateFixSanity
      rw [if_pos hlt]
    rw [hout, if_neg (by rw [hsn]; exact Bool.false_ne_true)]
    exact ⟨rfl, rfl, rfl⟩
  · intro hge
    have hsn : (validateFixSanity (applyLineFix lineFix s.fileContent).1
        (backupFile s.day s.path s.fileContent s.store).2).1 = true := by
      unfold validateFixSanity
      rw [if_neg hge]
    rw [hout, if_pos hsn]
    exact ⟨rfl, rfl⟩

def bigBackup : List Char := "1\n2\n3\n4\n5\n6\n7\n8\n9\n10".toList

def c4State : FsState :=
  { fileContent := "h\nx\"".toList, day := "2026-10-12", path := "f.csv",
    store := [(("2026-10-12", "f.csv"), bigBackup)] }

/-- C4 witness: a same-day backup of 10 raw lines already exists; the file
now has 2 raw lines with an odd-quote defect on line 2, so the repaired
file keeps 2 raw lines, `2 * 2 < 10`, and the rollback branch fires. -/
theorem runFix_sanity_rollback_witness :
    (runFixG checkRedundantAffected removeOddQuotesFromLine
        (fixDetailsFor "check_redundant_quotes") "check_redundant_quotes"
        "fix_redundant_quotes" none c4State).1.fileContent = bigBackup ∧
      (runFixG checkRedundantAffected removeOddQuotesFromLine
        (fixDetailsFor "check_redundant_quotes") "check_redundant_quotes"
        "fix_redundant_quotes" none c4State).2.success = false := by
  have h := runFix_sanity_rollback checkRedundantAffected removeOddQuotesFromLine
    (fixDetailsFor "check_redundant_quotes") "check_redundant_quotes"
    "fix_redundant_quotes" c4State (by decide)
  have h2 := h.1 (by decide)
  exact ⟨h2.1, h2.2.1⟩

/-- C5: when the check reports affected lines but creating the backup
raises, both `_run_fix` and `_run_ignore` abort before any mutation: the
file-system state is returned unchanged and the `FixResult` has
`success = false` with a details message reporting the backup failure. -/
theorem backup_failure_aborts (checkAff : List Char → List Nat)
    (lineFix : List Char → List Char) (fixDetails : Nat → String)
    (vn fn e : String) (s : FsState)
    (hfix : checkAff s.fileContent ≠ []) (aff : List Nat) (hig : aff ≠ []) :
    runFixG checkAff lineFix fixDetails vn fn (some e) s =
        (s, { file_path := s.path, fix_name := "fix_" ++ vn, lines_fixed := 0,
              lines_removed := [], success := false,
              details := "Backup failed: " ++ e }) ∧
      runIgnore (some e) aff vn s =
        (s, { file_path := s.path, fix_name := "ignore_" ++ vn, lines_fixed := 0,
              lines_removed := [], success := false,
              details := "Backup failed: " ++ e }) := by
  constructor
  · unfold runFixG
    rw [if_neg hfix]
  · unfold runIgnore
    rw [if_neg hig]

def c5State : FsState :=
  { fileContent := "h\na\"b".toList, day := "2026-10-12", path := "f.csv",
    store := [] }

/-- C5 witness: a file with an odd-quote defect on line 2 and a backup that
fails with `disk full` — both repair paths return the state unchanged and a
failed result. -/
theorem backup_failure_aborts_witness :
    runFixG checkRedundantAffected removeOddQuotesFromLine
        (fixDetailsFor "check_redundant_quotes") "check_redundant_quotes"
        "fix_redundant_quotes" (some "disk full") c5State =
        (c5State, { file_path := "f.csv", fix_name := "fix_check_redundant_quotes",
                    lines_fixed := 0, lines_removed := [], success := false,
                    details := "Backup failed: disk full" }) ∧
      runIgnore (some "disk full") [2] "check_redundant_quotes" c5State =
        (c5State, { file_path := "f.csv", fix_name := "ignore_check_redundant_quotes",
                    lines_fixed := 0, lines_removed := [], success := false,
                    details := "Backup failed: disk full" }) := by
  have h := backup_failure_aborts checkRedundantAffected removeOddQuotesFromLine
    (fixDetailsFor "check_redundant_quotes") "check_redundant_quotes"
    "fix_redundant_quotes" "disk full" c5State (by decide) [2] (by decide)
  exact ⟨h.1, h.2⟩

/-- C8: `backup_file` creates at most one backup per file per calendar day:
if no backup exists yet for `(day, path)`, the first call stores the
current content; a second call on the same day — with the file possibly
holding different content by then — returns the first day's backup bytes
and leaves the store unchanged. -/
theorem backup_once_per_day (day p : String) (st : BackupStore) (c1 c2 : List Char)
    (h : bkLookup (day, p) st = none) :
    (backupFile day p c1 st).2 = c1 ∧
      bkLookup (day, p) (backupFile day p c1 st).1 = some c1 ∧
      backupFile day p c2 (backupFile day p c1 st).1 = ((backupFile day p c1 st).1, c1) := by
  have h1 : backupFile day p c1 st = (((day, p), c1) :: st, c1) := by
    unfold backupFile
    rw [h]
  have h2 : bkLookup (day, p) (((day, p), c1) :: st) = some c1 := by
    unfold bkLookup
    rw [if_pos rfl]
  refine ⟨by rw [h1], by rw [h1]; exact h2, ?_⟩
  rw [h1]
  unfold backupFile
  rw [h2]

/-- C8 witness: an empty store, a first backup of `old`, a second attempt on
the same day with content `new`. -/
theorem backup_once_per_day_witness :
    (backupFile "2026-10-12" "f.csv" "old".toList []).2 = "old".toList ∧
      bkLookup ("2026-10-12", "f.csv")
          (backupFile "2026-10-12" "f.csv" "old".toList []).1 = some "old".toList ∧
      backupFile "2026-10-12" "f.csv" "new".toList
          (backupFile "2026-10-12" "f.csv" "old".toList []).1 =
        ((backupFile "2026-10-12" "f.csv" "old".toList []).1, "old".toList) :=
  backup_once_per_day "2026-10-12" "f.csv" [] "old".toList "new".toList rfl

/-- C6: re-running `checkMalformedQuotes` on the content written by
`fix_malformed` always reports `Passed`: after doubling, no field of any
non-header, non-blank line has a nonzero even residual unescaped-quote
count. -/
theorem fixMalformed_recheck_passes (c : List Char) (p : String) (dn : Option String) :
    checkMalformedAffected (fixMalformedContent c) = [] ∧
      (checkMalformedQuotes p (Except.ok (fixMalformedContent c)) dn).status =
        ValidationStatus.passed := by
  refine ⟨checkMalformedAffected_fixMalformed c, ?_⟩
  unfold checkMalformedQuotes
  simp only [checkMalformedAffected_fixMalformed c]
  rw [if_neg (by simp)]

/-- C7: `fix_redundant` is idempotent — after one successful `_run_fix` of
the redundant-quotes fix, a second run finds zero affected lines in its
preliminary re-check, so it returns success with zero lines fixed, the
no-issues details message, and the state (file content and backup store)
untouched: no second backup is created. -/
theorem fixRedundant_idempotent (s : FsState) (be be2 : Option String)
    (hsuccess : (runFixG checkRedundantAffected removeOddQuotesFromLine
        (fixDetailsFor "check_redundant_quotes") "check_redundant_quotes"
        "fix_redundant_quotes" be s).2.success = true) :
    runFixG checkRedundantAffected removeOddQuotesFromLine
        (fixDetailsFor "check_redundant_quotes") "check_redundant_quotes"
        "fix_redundant_quotes" be2
        (runFixG checkRedundantAffected removeOddQuotesFromLine
          (fixDetailsFor "check_redundant_quotes") "check_redundant_quotes"
          "fix_redundant_quotes" be s).1 =
      ((runFixG checkRedundantAffected removeOddQuotesFromLine
          (fixDetailsFor "check_redundant_quotes") "check_redundant_quotes"
          "fix_redundant_quotes" be s).1,
       { file_path := s.path, fix_name := "fix_check_redundant_quotes",
         lines_fixed := 0, lines_removed := [], success := true,
         details := "No issues found, file not modified" }) := by
  by_cases hempty : checkRedundantAffected s.fileContent = []
  · have h1 : runFixG checkRedundantAffected removeOddQuotesFromLine
        (fixDetailsFor "check_redundant_quotes") "check_redundant_quotes"
        "fix_redundant_quotes" be s =
        (s, { file_path := s.path, fix_name := "fix_check_redundant_quotes",
              lines_fixed := 0, lines_removed := [], success := true,
              details := "No issues found, file not modified" }) := by
      unfold runFixG
      rw [if_pos hempty]
      rfl
    rw [h1]
    unfold runFixG
    rw [if_pos hempty]
    rfl
  · cases be with
    | some e =>
      have : (runFixG checkRedundantAffected removeOddQuotesFromLine
          (fixDetailsFor "check_redundant_quotes") "check_redundant_quotes"
          "fix_redundant_quotes" (some e) s).2.success = false := by
        unfold runFixG
        rw [if_neg hempty]
      rw [this] at hsuccess
      exact absurd hsuccess Bool.false_ne_true
    | none =>
      have hout := runFixG_not_empty checkRedundantAffected removeOddQuotesFromLine
        (fixDetailsFor "check_redundant_quotes") "check_redundant_quotes"
        "fix_redundant_quotes" s hempty
      by_cases hsn : (validateFixSanity (applyLineFix removeOddQuotesFromLine s.fileContent).1
          (backupFile s.day s.path s.fileContent s.store).2).1 = true
      · rw [hout, if_pos hsn]
        have hfixed : checkRedundantAffected
            (applyLineFix removeOddQuotesFromLine s.fileContent).1 = [] :=
          checkRedundantAffected_fixRedundant s.fileContent
        unfold runFixG
        rw [if_pos hfixed]
        rfl
      · rw [hout, if_neg hsn] at hsuccess
        exact absurd hsuccess Bool.false_ne_true

def c7State : FsState :=
  { fileContent := "h\na\"b".toList, day := "2026-10-12", path := "f.csv",
    store := [] }

/-- C7 witness: a first successful fix of `h\na"b` (line 2 carries one odd
quote) followed by a second run, which is a no-op. -/
theorem fixRedundant_idempotent_witness :
    runFixG checkRedundantAffected removeOddQuotesFromLine
        (fixDetailsFor "check_redundant_quotes") "check_redundant_quotes"
        "fix_redundant_quotes" none
        (runFixG checkRedundantAffected removeOddQuotesFromLine
          (fixDetailsFor "check_redundant_quotes") "check_redundant_quotes"
          "fix_redundant_quotes" none c7State).1 =
      ((runFixG checkRedundantAffected removeOddQuotesFromLine
          (fixDetailsFor "check_redundant_quotes") "check_redundant_quotes"
          "fix_redundant_quotes" none c7State).1,
       { file_path := "f.csv", fix_name := "fix_check_redundant_quotes",
         lines_fixed := 0, lines_removed := [], success := true,
         details := "No issues found, file not modified" }) :=
  fixRedundant_idempotent c7State none none (by decide)

/-- C9 counterexample: the outcome returned for an unreadable file carries
status `failed`, an empty affected-line list and a details string with the
exception text, but the `ValidationResult` schema has no `error_count`
field at all, so the claimed `error_count = 1` attribute does not exist on
the returned outcome. -/
theorem read_error_result_has_no_error_count :
    (checkRedundantQuotes "fund.csv" (Except.error "boom") none).status =
        ValidationStatus.failed ∧
      (checkRedundantQuotes "fund.csv" (Except.error "boom") none).affected_lines = [] ∧
      (checkRedundantQuotes "fund.csv" (Except.error "boom") none).details =
        "Error reading file: boom" ∧
      "error_count" ∉ validationResultFields := by
  refine ⟨rfl, rfl, rfl, ?_⟩
  decide

/-- C9 (amended): for every unreadable file, each classifier check returns
(rather than raises) a `ValidationResult` with status `failed`, an empty
affected-line list, `fixes_applied = 0`, and a details string carrying the
exception text; the result has no `error_count` field. -/
theorem read_error_returns_failed (p e : String) (dn : Option String) :
    checkRedundantQuotes p (Except.error e) dn =
        { file_path := p, validation_name := "check_redundant_quotes",
          status := ValidationStatus.failed,
          strategy_applied := ValidationStrategy.ignore, dataset_name := dn,
          details := "Error reading file: " ++ e, affected_lines := [],
          fixes_applied := 0 } ∧
      checkMalformedQuotes p (Except.error e) dn =
        { file_path := p, validation_name := "check_malformed_quotes",
          status := ValidationStatus.failed,
          strategy_applied := ValidationStrategy.ignore, dataset_name := dn,
          details := "Error reading file: " ++ e, affected_lines := [],
          fixes_applied := 0 } :=
  ⟨rfl, rfl⟩

/-- C10 counterexample: `_fix_redundant_quotes` does not preserve the raw
line count exactly — for the file `h\n"` (no trailing newline), the fix
empties the final line, and the raw line count drops from 2 to 1. -/
theorem fix_can_drop_final_line_count :
    pythonLineCount "h\n\"".toList = 2 ∧
      fixRedundantContent "h\n\"".toList = "h\n".toList ∧
      pythonLineCount (fixRedundantContent "h\n\"".toList) = 1 := by
  refine ⟨?_, ?_, ?_⟩
  · decide
  · decide
  · decide

/-- C10 (amended): the in-place fixes preserve the number of lines of the
split content (they never add or remove newlines), and the raw line count
can drop by at most the final non-terminated line; consequently, when the
backup equals the pre-fix content, the sanity check always passes — the
rollback branch is unreachable for a FIX-strategy repair — and the check
never fails against an empty backup (whose raw line count is zero), so
the ratio reported on failure always has a positive denominator. -/
theorem fix_sanity_never_rolls_back (c : List Char) :
    validateFixSanity (fixRedundantContent c) c = (true, "Sanity check passed") ∧
      validateFixSanity (fixMalformedContent c) c = (true, "Sanity check passed") ∧
      (splitLines (fixRedundantContent c)).length = (splitLines c).length ∧
      (splitLines (fixMalformedContent c)).length = (splitLines c).length ∧
      ∀ fixedC : List Char, (validateFixSanity fixedC []).1 = true := by
  refine ⟨(validateFixSanity_fix_passes c).1, (validateFixSanity_fix_passes c).2,
    ?_, ?_, ?_⟩
  · unfold fixRedundantContent
    rw [splitLines_applyLineFix removeOddQuotesFromLine nl_not_mem_removeOdd c,
      fixLinesAux_length]
  · unfold fixMalformedContent
    rw [splitLines_applyLineFix doubleEvenQuotesInLine nl_not_mem_doubleEven c,
      fixLinesAux_length]
  · intro fixedC
    unfold validateFixSanity
    rw [if_neg (by show ¬ 2 * pythonLineCount fixedC < pythonLineCount []; simp [pythonLineCount])]
